import Mathlib

/-!
Shallow embedding of `src/report_extractor.py` (class `ReportProcessor`).

Modelling conventions:
* a document is its list of paragraph texts plus its list of tables; a table is
  a list of rows, a row a list of raw cell texts (the `cell.text` accessor);
* Python `str.strip()` is `trimS` (ASCII whitespace, which covers every string
  the claims exercise);
* Python `float` arithmetic is idealised as exact rational arithmetic
  (`Frac`, unreduced numerator/denominator pairs); `round` is `pyRound`
  (round-half-to-even, Python's convention) and the `f"{x:.1f}"` format is
  `fmt1` (one decimal digit, ties to even);
* `\d` is the ASCII digit class (the documents the claims exercise are ASCII
  digits); the concrete regular expressions of the source are embedded by a
  small backtracking matcher (`matchSeq`) over an explicit element list, with
  Python's leftmost-match / greedy / lazy preference orders.
-/

/-- ASCII whitespace, the characters Python's `str.strip()` and `\s` remove
on the inputs in scope. -/
def isSpaceChar (c : Char) : Bool :=
  c == ' ' || c == '\t' || c == '\n' || c == '\r' || c == '\x0b' || c == '\x0c'

/-- `str.strip()` on a character list. -/
def trimChars (l : List Char) : List Char :=
  ((l.dropWhile isSpaceChar).reverse.dropWhile isSpaceChar).reverse

/-- `str.strip()`. -/
def trimS (s : String) : String :=
  ⟨trimChars s.data⟩

/-- Python's substring test `pat in s`. -/
def containsSub (pat : List Char) : List Char → Bool
  | [] => pat.isEmpty
  | s@(_ :: t) => pat.isPrefixOf s || containsSub pat t

/-- `pat in s` on strings. -/
def strContains (s pat : String) : Bool :=
  containsSub pat.data s.data

/-- `any(keyword in cell_text for keyword in kws)`. -/
def containsAny (t : String) (kws : List String) : Bool :=
  kws.any (fun k => strContains t k)

/-- Decimal digit character. -/
def digitChar (d : Nat) : Char :=
  Char.ofNat (48 + d)

/-- Decimal digits of a natural number (fuel-driven so that it reduces in the
kernel). -/
def natStrAux : Nat → Nat → List Char
  | 0, _ => []
  | fuel + 1, n => if n < 10 then [digitChar n] else natStrAux fuel (n / 10) ++ [digitChar (n % 10)]

/-- Decimal rendering of a natural number, as `str` produces it. -/
def natStr (n : Nat) : String :=
  ⟨natStrAux (n + 1) n⟩

/-- Decimal rendering of an integer, as `str` produces it. -/
def intStr (i : Int) : String :=
  if i < 0 then "-" ++ natStr (-i).toNat else natStr i.toNat

/-- Python `s.zfill(2)` for the digit strings the date extractor produces. -/
def zfill2 (s : String) : String :=
  if 2 ≤ s.length then s else if s.length = 1 then "0" ++ s else "00"

/-- The string holds at least one non-whitespace character. -/
def hasNonWs (s : String) : Bool :=
  s.data.any (fun c => !isSpaceChar c)

/-- An exact rational `num / den` with positive denominator, the idealisation
of the Python floats the aggregator computes with (pairs are not reduced;
every operation below is exact rational arithmetic). -/
structure Frac where
  num : ℤ
  den : ℕ
deriving Repr, DecidableEq

/-- Exact rational addition. -/
def fadd (a b : Frac) : Frac :=
  ⟨a.num * b.den + b.num * a.den, a.den * b.den⟩

/-- Exact division by a natural number. -/
def fdivNat (a : Frac) (n : ℕ) : Frac :=
  ⟨a.num, a.den * n⟩

/-- Exact multiplication by ten. -/
def fmul10 (a : Frac) : Frac :=
  ⟨a.num * 10, a.den⟩

/-- Python `round` on an exact rational: round half to even. -/
def pyRound (q : Frac) : ℤ :=
  let f := q.num.fdiv q.den
  let remTwice := 2 * (q.num - f * q.den)
  if remTwice < (q.den : ℤ) then f
  else if (q.den : ℤ) < remTwice then f + 1
  else if f % 2 = 0 then f else f + 1

/-- `sum(values) / len(values)`. -/
def meanQ (l : List Frac) : Frac :=
  fdivNat (l.foldl fadd ⟨0, 1⟩) l.length

/-- Python `f"{q:.1f}"` on an exact nonnegative rational: one decimal digit,
ties to even. -/
def fmt1 (q : Frac) : String :=
  let n := (pyRound (fmul10 q)).toNat
  natStr (n / 10) ++ "." ++ natStr (n % 10)

/-! ## The regular-expression matcher

The source uses a fixed finite set of concrete regular expressions.  Each is
embedded as a list of `RElem` elements; `matchSeq` performs anchored matching
with Python's backtracking preference order (greedy repetitions try longest
first, lazy `.*?` shortest first, alternatives left first), returning the text
consumed by every element. -/

/-- One element of an embedded regular expression. -/
inductive RElem where
  | lit (cs : List Char)
  | one (p : Char → Bool)
  | rep (p : Char → Bool) (lo : Nat) (hi : Option Nat) (greedy : Bool)
  | lazyDots
  | alt2 (a b : List Char)

/-- Candidate (consumed, rest) splits for one element, in the order Python's
backtracking tries them. -/
def cands : RElem → List Char → List (List Char × List Char)
  | .lit cs, s => if cs.isPrefixOf s then [(cs, s.drop cs.length)] else []
  | .one p, s =>
    match s with
    | [] => []
    | c :: t => if p c then [([c], t)] else []
  | .rep p lo hi greedy, s =>
    let run := (s.takeWhile p).length
    let m := match hi with
      | some h => min run h
      | none => run
    if lo ≤ m then
      let lens := if greedy then (List.range (m - lo + 1)).map (fun k => m - k)
                  else (List.range (m - lo + 1)).map (fun k => lo + k)
      lens.map (fun l => (s.take l, s.drop l))
    else []
  | .lazyDots, s => (List.range (s.length + 1)).map (fun l => (s.take l, s.drop l))
  | .alt2 a b, s =>
    (if a.isPrefixOf s then [(a, s.drop a.length)] else []) ++
    (if b.isPrefixOf s then [(b, s.drop b.length)] else [])

/-- First successful application over a candidate list. -/
def firstSome {α β : Type} (f : α → Option β) : List α → Option β
  | [] => none
  | a :: as => match f a with
    | some b => some b
    | none => firstSome f as

/-- Anchored match of an element sequence: on success, the text consumed by
each element (in order) and the unconsumed rest. -/
def matchSeq : List RElem → List Char → Option (List (List Char) × List Char)
  | [], s => some ([], s)
  | e :: es, s =>
    firstSome (fun cr => (matchSeq es cr.2).map (fun pr => (cr.1 :: pr.1, pr.2))) (cands e s)

/-- `re.search`: the match at the leftmost feasible start position. -/
def searchFrom (pat : List RElem) : List Char → Option (List (List Char))
  | [] => (matchSeq pat []).map (·.1)
  | s@(_ :: t) =>
    match matchSeq pat s with
    | some r => some r.1
    | none => searchFrom pat t

/-- `re.findall` worker; the fuel only bounds the recursion, every pattern of
the source consumes at least one character per match. -/
def findAllAux (pat : List RElem) : Nat → List Char → List (List (List Char))
  | 0, _ => []
  | _, [] => []
  | fuel + 1, s@(_ :: t) =>
    match matchSeq pat s with
    | some (parts, rest) =>
      parts :: findAllAux pat fuel (if rest.length < s.length then rest else t)
    | none => findAllAux pat fuel t

/-- `re.findall`: leftmost, non-overlapping matches. -/
def findAll (pat : List RElem) (s : List Char) : List (List (List Char)) :=
  findAllAux pat (s.length + 1) s

/-- Concatenation of the text consumed by elements `i ≤ k < j`; used to read a
capturing group off a `matchSeq` result. -/
def sliceConcat (parts : List (List Char)) (i j : Nat) : String :=
  ⟨((parts.drop i).take (j - i)).foldl (· ++ ·) []⟩

/-! ## Field Extractor (`extract_report_number`, `extract_sample_name`,
`extract_test_date`) -/

/-- The class `[：:]`. -/
def isColon (c : Char) : Bool :=
  c == '：' || c == ':'

/-- The class `[A-Za-z0-9\-]`. -/
def isAlnumDash (c : Char) : Bool :=
  ('A' ≤ c && c ≤ 'Z') || ('a' ≤ c && c ≤ 'z') || c.isDigit || c == '-'

/-- The class `[^\n\r]`. -/
def isNotNl (c : Char) : Bool :=
  !(c == '\n' || c == '\r')

/-- `label[：:]\s*(cls+)`, the shape of the report-number and sample-name
patterns; the capture is element 3. -/
def labelledPat (label : String) (cls : Char → Bool) : List RElem :=
  [.lit label.data, .one isColon, .rep isSpaceChar 0 none true, .rep cls 1 none true]

/-- `extract_report_number`: ordered label alternatives, first `re.search`
match wins, capture stripped; empty string if none match. -/
def extract_report_number (doc_text : String) : String :=
  let pats := [labelledPat "报告编号" isAlnumDash, labelledPat "受控编号" isAlnumDash,
               labelledPat "编号" isAlnumDash]
  let rec go : List (List RElem) → String
    | [] => ""
    | p :: ps =>
      match searchFrom p doc_text.data with
      | some parts => trimS ⟨parts.getD 3 []⟩
      | none => go ps
  go pats

/-- `extract_sample_name`: same shape with the `[^\n\r]+` capture class. -/
def extract_sample_name (doc_text : String) : String :=
  let pats := [labelledPat "样品名称" isNotNl, labelledPat "工程名称" isNotNl,
               labelledPat "项目名称" isNotNl]
  let rec go : List (List RElem) → String
    | [] => ""
    | p :: ps =>
      match searchFrom p doc_text.data with
      | some parts => trimS ⟨parts.getD 3 []⟩
      | none => go ps
  go pats

/-- `\d{4}年\d{1,2}月\d{1,2}日` as six elements. -/
def cnDateElems : List RElem :=
  [.rep Char.isDigit 4 (some 4) true, .lit "年".data, .rep Char.isDigit 1 (some 2) true,
   .lit "月".data, .rep Char.isDigit 1 (some 2) true, .lit "日".data]

/-- `\d{4}-\d{1,2}-\d{1,2}` as five elements. -/
def dashDateElems : List RElem :=
  [.rep Char.isDigit 4 (some 4) true, .lit "-".data, .rep Char.isDigit 1 (some 2) true,
   .lit "-".data, .rep Char.isDigit 1 (some 2) true]

/-- The six date patterns of `extract_test_date`, in source order, each with
the element range of its capturing group. -/
def datePatterns : List (List RElem × Nat × Nat) :=
  [([.lit "检测日期".data, .one isColon, .rep isSpaceChar 0 none true] ++ cnDateElems, 3, 9),
   ([.lit "检测日期".data, .one isColon, .rep isSpaceChar 0 none true] ++ dashDateElems, 3, 8),
   ([.lit "日期".data, .one isColon, .rep isSpaceChar 0 none true] ++ cnDateElems, 3, 9),
   ([.lit "Date".data, .one isColon, .rep isSpaceChar 0 none true] ++ dashDateElems, 3, 8),
   (cnDateElems, 0, 6),
   (dashDateElems, 0, 5)]

/-- Python `s.split(sep)` for a one-character separator. -/
def splitOnChar (sep : Char) : List Char → List (List Char)
  | [] => [[]]
  | c :: t =>
    if c = sep then [] :: splitOnChar sep t
    else
      match splitOnChar sep t with
      | h :: r => (c :: h) :: r
      | [] => [[c]]

/-- The normalisation body of `extract_test_date`: `年`-form dates are
re-parsed by `re.match` and zero-padded, dashed dates are split on `-` and
zero-padded; `none` makes the pattern loop continue. -/
def normalizeDate (ds : String) : Option String :=
  if strContains ds "年" then
    match matchSeq cnDateElems ds.data with
    | some (parts, _) =>
      some (⟨parts.getD 0 []⟩ ++ "-" ++ zfill2 ⟨parts.getD 2 []⟩ ++ "-" ++ zfill2 ⟨parts.getD 4 []⟩)
    | none => none
  else
    let parts := (splitOnChar '-' ds.data).map (fun l => (⟨l⟩ : String))
    if parts.length = 3 then
      some (parts.getD 0 "" ++ "-" ++ zfill2 (parts.getD 1 "") ++ "-" ++ zfill2 (parts.getD 2 ""))
    else none

/-- `extract_test_date`: ordered patterns, first match normalised; the
sentinel `"未知"` if nothing matches. -/
def extract_test_date (doc_text : String) : String :=
  let rec go : List (List RElem × Nat × Nat) → String
    | [] => "未知"
    | (p, i, j) :: ps =>
      match searchFrom p doc_text.data with
      | some parts =>
        match normalizeDate (sliceConcat parts i j) with
        | some r => r
        | none => go ps
      | none => go ps
  go datePatterns

/-! ## Header Role Detector (lines 137-162 of `extract_table_data`) -/

/-- The keyword list guarding `header_mapping['test_item']`. -/
def itemKeywords : List String :=
  ["检测项目", "项目", "检测内容", "检测部位", "部位"]

/-- The keyword list guarding `header_mapping['measured_value']`. -/
def valueKeywords : List String :=
  ["实测值", "实测结果", "数值", "结果", "强度", "芯样抗压强度", "代表值"]

/-- The keyword list guarding `header_mapping['judgment']`. -/
def judgmentKeywords : List String :=
  ["单项判定", "单项结论", "判定", "结论", "结论"]

/-- `header_mapping`: role name to column index, each key optional. -/
structure HeaderMapping where
  test_item : Option Nat
  measured_value : Option Nat
  judgment : Option Nat
deriving Repr, DecidableEq

/-- The three roles, for stating properties of the detector. -/
inductive HRole where
  | item
  | value
  | judg
deriving Repr, DecidableEq

/-- Column recorded for a role. -/
def roleCol (m : HeaderMapping) : HRole → Option Nat
  | .item => m.test_item
  | .value => m.measured_value
  | .judg => m.judgment

/-- One header cell visit: the `if/elif/elif` chain of lines 149-157, on the
stripped cell text, recording the cell's column index. -/
def stepMapping (m : HeaderMapping) (p : Nat × String) : HeaderMapping :=
  let t := trimS p.2
  if containsAny t itemKeywords then { m with test_item := some p.1 }
  else if containsAny t valueKeywords then { m with measured_value := some p.1 }
  else if containsAny t judgmentKeywords then { m with judgment := some p.1 }
  else m

/-- Header analysis over the candidate header rows, cells scanned row-major
with per-row column indices. -/
def buildMapping (rows : List (List String)) : HeaderMapping :=
  (rows.flatMap List.enum).foldl stepMapping ⟨none, none, none⟩

/-- `len(header_mapping)`. -/
def assignedCount (m : HeaderMapping) : Nat :=
  (if m.test_item.isSome then 1 else 0) + (if m.measured_value.isSome then 1 else 0) +
    (if m.judgment.isSome then 1 else 0)

/-- `max(header_mapping.values())` (the mapping is nonempty wherever the
source evaluates this). -/
def maxCol (m : HeaderMapping) : Nat :=
  [m.test_item, m.measured_value, m.judgment].foldl
    (fun a o => match o with
      | some v => max a v
      | none => a) 0

/-! ## Row Extractor (lines 166-214) -/

/-- `item_data`: one raw record of `{test_item, measured_value, judgment}`. -/
structure ItemData where
  test_item : String
  measured_value : String
  judgment : String
deriving Repr, DecidableEq

/-- The validity filter of lines 202-208 (Python truthiness plus the
membership and `startswith` tests, on already-stripped fields). -/
def ValidItem (it : ItemData) : Prop :=
  it.test_item ≠ "" ∧ it.test_item ≠ "以下空白" ∧ it.test_item ≠ " " ∧
  String.isPrefixOf "以下" it.test_item = false ∧
  it.measured_value ≠ "" ∧ it.measured_value ≠ " " ∧
  it.judgment ≠ "" ∧ it.judgment ≠ " "

instance : DecidablePred ValidItem := fun it => by
  unfold ValidItem
  infer_instance

/-- Field extraction for one data row (lines 168-194): the carried
`current_location` and the `table_data[-1]` judgment fallback `prevJ` are
supplied by the caller; returns the built record and the updated
`current_location`. -/
def buildItem (m : HeaderMapping) (prevJ : String) (idx : Nat) (cur : String)
    (row : List String) : ItemData × String :=
  let ti := match m.test_item with
    | some c =>
      let t := trimS (row.getD c "")
      if t = "" ∧ 0 < idx then (cur, cur) else (t, t)
    | none => ("", cur)
  let mv := match m.measured_value with
    | some c => trimS (row.getD c "")
    | none => ""
  let j := match m.judgment with
    | some c =>
      let t := trimS (row.getD c "")
      if t = "" ∧ 0 < idx then prevJ else t
    | none => ""
  (⟨ti.1, mv, j⟩, ti.2)

/-- `location_groups` update (lines 211-214): insertion-ordered dict of
`item` label to the list of its accepted records. -/
def addToGroups (gs : List (String × List ItemData)) (k : String) (it : ItemData) :
    List (String × List ItemData) :=
  match gs with
  | [] => [(k, [it])]
  | (k0, l0) :: rest =>
    if k0 = k then (k0, l0 ++ [it]) :: rest else (k0, l0) :: addToGroups rest k it

/-- The data-row loop of lines 166-214: skips rows not covering the maximum
mapped column, builds each record, filters it, and groups the survivors;
`idx` is `row_idx`, `cur` is `current_location`. -/
def walkGo (m : HeaderMapping) (prevJ : String) :
    Nat → String → List (String × List ItemData) → List (List String) →
    List (String × List ItemData)
  | _, _, gs, [] => gs
  | idx, cur, gs, row :: rest =>
    if maxCol m < row.length then
      walkGo m prevJ (idx + 1) (buildItem m prevJ idx cur row).2
        (if ValidItem (buildItem m prevJ idx cur row).1 then
          addToGroups gs (buildItem m prevJ idx cur row).1.test_item
            (buildItem m prevJ idx cur row).1
        else gs) rest
    else
      walkGo m prevJ (idx + 1) cur gs rest

/-! ## Location Grouper and Aggregator (lines 216-262) -/

/-- First match of `(\d+\.?\d*)` starting at the given digit: maximal digit
run, optional dot, maximal digit run. -/
def numTokAt (s : List Char) : List Char :=
  let d1 := s.takeWhile Char.isDigit
  match s.drop d1.length with
  | '.' :: r2 => d1 ++ '.' :: r2.takeWhile Char.isDigit
  | _ => d1

/-- `re.search(r'(\d+\.?\d*)', s)`: the leftmost numeric token, if any. -/
def firstNumTok : List Char → Option (List Char)
  | [] => none
  | c :: t => if c.isDigit then some (numTokAt (c :: t)) else firstNumTok t

/-- Value of a digit list. -/
def digitsVal (l : List Char) : Nat :=
  l.foldl (fun a c => a * 10 + (c.toNat - 48)) 0

/-- `float(...)` of a numeric token, idealised as an exact rational. -/
def ratOfTok (tok : List Char) : Frac :=
  let ip := tok.takeWhile Char.isDigit
  match tok.drop ip.length with
  | '.' :: fd => ⟨(digitsVal ip : ℤ) * (10 : ℤ) ^ fd.length + (digitsVal fd : ℤ), 10 ^ fd.length⟩
  | _ => ⟨(digitsVal ip : ℤ), 1⟩

/-- One entry of `representative_values` (lines 234-239). -/
structure Bucket where
  location : String
  judgment : String
  values : List Frac
  sample_item : ItemData
deriving Repr, DecidableEq

/-- Insert one numeric value into the keyed bucket dict (lines 232-240):
create the bucket on first contact (remembering judgment and the template
record), then append the value. -/
def addValueToBuckets (bs : List (String × Bucket)) (key loc : String) (it : ItemData)
    (q : Frac) : List (String × Bucket) :=
  match bs with
  | [] => [(key, ⟨loc, it.judgment, [q], it⟩)]
  | (k, b) :: rest =>
    if k = key then (k, { b with values := b.values ++ [q] }) :: rest
    else (k, b) :: addValueToBuckets rest key loc it q

/-- `representative_values` for one location group (lines 220-240): bucket
key `f"{location}_{round(value)}"`, records without a numeric token dropped. -/
def buildBuckets (loc : String) (items : List ItemData) : List (String × Bucket) :=
  items.foldl (fun bs it =>
    match firstNumTok it.measured_value.data with
    | some tok => addValueToBuckets bs (loc ++ "_" ++ intStr (pyRound (ratOfTok tok))) loc it
        (ratOfTok tok)
    | none => bs) []

/-- Does the string begin with a digit?  This is exactly when
`re.match(r'\d+\.?\d*', s)` succeeds. -/
def startsWithDigit (s : String) : Bool :=
  match s.data with
  | [] => false
  | c :: _ => c.isDigit

/-- `re.search(r'([^\d]+)$', s)`: the maximal all-non-digit suffix, if
nonempty. -/
def trailingNonDigits (s : List Char) : Option (List Char) :=
  let u := (s.reverse.takeWhile (fun c => !c.isDigit)).reverse
  if u = [] then none else some u

/-- Representative-value formatting (lines 250-260): numeric-leading template
keeps only the one-decimal mean, otherwise a trailing non-digit suffix is
re-attached stripped. -/
def formatValue (avg : Frac) (orig : String) : String :=
  if startsWithDigit orig then fmt1 avg
  else
    match trailingNonDigits orig.data with
    | some u => fmt1 avg ++ " " ++ trimS ⟨u⟩
    | none => fmt1 avg

/-- Records appended for one location group (lines 243-262): one per bucket,
in bucket-creation order, the template record with its value replaced by the
formatted mean. -/
def emitBuckets (loc : String) (items : List ItemData) : List ItemData :=
  (buildBuckets loc items).flatMap (fun kb =>
    if kb.2.values = [] then []
    else [{ kb.2.sample_item with
            measured_value := formatValue (meanQ kb.2.values) kb.2.sample_item.measured_value }])

/-- `table_data[-1]['judgment'] if table_data else ""`. -/
def prevJudg (prev : List ItemData) : String :=
  match prev.getLast? with
  | some it => it.judgment
  | none => ""

/-- The records one table appends to `table_data` (the body of the
`for table in doc.tables` loop, lines 132-262), given the `table_data`
accumulated so far (read only by the judgment fallback). -/
def processTable (prev : List ItemData) (rows : List (List String)) : List ItemData :=
  if 1 < rows.length then
    let headerRows := rows.take (min 3 rows.length)
    let m := buildMapping headerRows
    if 2 ≤ assignedCount m then
      let groups := walkGo m (prevJudg prev) 0 "" [] (rows.drop headerRows.length)
      groups.flatMap (fun g => if g.2 = [] then [] else emitBuckets g.1 g.2)
    else []
  else []

/-- The table loop with its short-circuit (lines 264-266): stop at the first
table after which `table_data` is nonempty. -/
def extractTablesGo : List ItemData → List (List (List String)) → List ItemData
  | acc, [] => acc
  | acc, t :: ts =>
    let acc' := acc ++ processTable acc t
    if acc' = [] then extractTablesGo acc' ts else acc'

/-! ## Text Fallback Extractor (`extract_from_text`) -/

/-- Pass 1 pattern
`([^\n:：]+)[：:]\s*([^\n（\(]+)[（\(]([^\n）\)]+)[）\)]`; captures are
elements 0, 3 and 5. -/
def genericTextPat : List RElem :=
  [.rep (fun c => !(c == '\n' || c == ':' || c == '：')) 1 none true,
   .one isColon,
   .rep isSpaceChar 0 none true,
   .rep (fun c => !(c == '\n' || c == '（' || c == '(')) 1 none true,
   .one (fun c => c == '（' || c == '('),
   .rep (fun c => !(c == '\n' || c == '）' || c == ')')) 1 none true,
   .one (fun c => c == '）' || c == ')')]

/-- `\d+\.\d+` as three elements. -/
def decimalElems : List RElem :=
  [.rep Char.isDigit 1 none true, .lit ".".data, .rep Char.isDigit 1 none true]

/-- Pass 2 pattern
`芯样抗压强度.*?结论.*?(\d+\.\d+)\s*MPa.*?(合格|不合格)` (DOTALL); the number is
elements 4-6, the judgment element 10. -/
def concretePat : List RElem :=
  [.lit "芯样抗压强度".data, .lazyDots, .lit "结论".data, .lazyDots] ++ decimalElems ++
  [.rep isSpaceChar 0 none true, .lit "MPa".data, .lazyDots, .alt2 "合格".data "不合格".data]

/-- Pass 3 pattern
`序号.*?检测部位.*?强度等级.*?芯样抗压强度.*?结论.*?(\d+).*?([^\s]+).*?C\d+.*?(\d+\.\d+)\s*MPa.*?(合格|不合格)`
(DOTALL); the serial number is element 10, the decimal value elements 17-19,
the judgment element 23. -/
def tableTextPat : List RElem :=
  [.lit "序号".data, .lazyDots, .lit "检测部位".data, .lazyDots, .lit "强度等级".data,
   .lazyDots, .lit "芯样抗压强度".data, .lazyDots, .lit "结论".data, .lazyDots,
   .rep Char.isDigit 1 none true, .lazyDots, .rep (fun c => !isSpaceChar c) 1 none true,
   .lazyDots, .lit "C".data, .rep Char.isDigit 1 none true, .lazyDots] ++ decimalElems ++
  [.rep isSpaceChar 0 none true, .lit "MPa".data, .lazyDots, .alt2 "合格".data "不合格".data]

/-- `extract_from_text` (lines 275-338): the generic pass with the validity
filter, then the two concrete-strength passes appended unfiltered. -/
def extract_from_text (doc_text : String) : List ItemData :=
  let pass1 := (findAll genericTextPat doc_text.data).flatMap (fun parts =>
    let it : ItemData :=
      ⟨trimS ⟨parts.getD 0 []⟩, trimS ⟨parts.getD 3 []⟩, trimS ⟨parts.getD 5 []⟩⟩
    if ValidItem it then [it] else [])
  let pass2 := (findAll concretePat doc_text.data).map (fun parts =>
    (⟨"混凝土抗压强度", sliceConcat parts 4 7 ++ " MPa", ⟨parts.getD 10 []⟩⟩ : ItemData))
  let pass3 := (findAll tableTextPat doc_text.data).map (fun parts =>
    (⟨"混凝土抗压强度(部位" ++ (⟨parts.getD 10 []⟩ : String) ++ ")",
      sliceConcat parts 17 20 ++ " MPa", ⟨parts.getD 23 []⟩⟩ : ItemData))
  pass1 ++ pass2 ++ pass3

/-! ## Document Processor (`extract_table_data`, `process_document`,
`process_all_documents`) -/

/-- A parsed document: ordered paragraph texts and ordered tables of raw cell
texts. -/
structure DocX where
  paragraphs : List String
  tables : List (List (List String))

/-- `"\n".join(para.text for para in doc.paragraphs)`. -/
def fullText (doc : DocX) : String :=
  String.intercalate "\n" doc.paragraphs

/-- `extract_table_data` (lines 119-273): the table loop, then the text
fallback when it produced nothing. -/
def extract_table_data (doc : DocX) : List ItemData :=
  let td := extractTablesGo [] doc.tables
  if td = [] then extract_from_text (fullText doc) else td

/-- One output row of the final table. -/
structure DetectionRecord where
  report_number : String
  sample_name : String
  test_item : String
  measured_value : String
  judgment : String
  test_date : String
deriving Repr, DecidableEq

/-- `process_document` (lines 340-387): scalar metadata stamped onto every
item-level record; `none` when no record was found. -/
def process_document (doc : DocX) : Option (List DetectionRecord) :=
  let doc_text := fullText doc
  let report_number := extract_report_number doc_text
  let sample_name := extract_sample_name doc_text
  let test_date := extract_test_date doc_text
  let table_data := extract_table_data doc
  if table_data = [] then none
  else some (table_data.map (fun it =>
    ⟨report_number, sample_name, it.test_item, it.measured_value, it.judgment, test_date⟩))

/-- The accumulation loop of `process_all_documents` (lines 408-417): a
document's records extend the run's list only when `process_document`
returned them. -/
def process_all_documents (docs : List DocX) : List DetectionRecord :=
  docs.foldl (fun acc d =>
    match process_document d with
    | some rs => acc ++ rs
    | none => acc) []

/-! ## Characterisations used by the statements

These definitions restate observable aspects of the pipeline in direct form
(last matching scan position, carried label, aggregate contribution); the
theorems below prove them equal to what the embedded code computes. -/

/-- A stripped header cell takes a role under the `if/elif/elif` chain: a
role's keyword occurs as a substring and no earlier role's keyword does. -/
def matchesRole (r : HRole) (t : String) : Bool :=
  match r with
  | .item => containsAny t itemKeywords
  | .value => !containsAny t itemKeywords && containsAny t valueKeywords
  | .judg =>
    !containsAny t itemKeywords && !containsAny t valueKeywords &&
      containsAny t judgmentKeywords

/-- The column of the last cell, in row-major scan order over the candidate
header rows, whose stripped text takes the role. -/
def lastRoleMatch (rows : List (List String)) (r : HRole) : Option Nat :=
  (((rows.flatMap List.enum).filter (fun p => matchesRole r (trimS p.2))).getLast?).map Prod.fst

/-- The candidate header rows of a table (`min(3, len(table.rows))` first
rows). -/
def headerCandidates (rows : List (List String)) : List (List String) :=
  rows.take (min 3 rows.length)

/-- The `current_location` update of one data row (reading the item-role cell
only). -/
def curStep (m : HeaderMapping) (idx : Nat) (cur : String) (row : List String) : String :=
  match m.test_item with
  | some c =>
    let t := trimS (row.getD c "")
    if t = "" ∧ 0 < idx then cur else t
  | none => cur

/-- The `current_location` state after a list of data rows. -/
def curGo (m : HeaderMapping) : Nat → String → List (List String) → String
  | _, cur, [] => cur
  | idx, cur, row :: rest =>
    if maxCol m < row.length then curGo m (idx + 1) (curStep m idx cur row) rest
    else curGo m (idx + 1) cur rest

/-- The stripped item-role cell text of a row when it is non-blank. -/
def labelOfRow (m : HeaderMapping) (row : List String) : Option String :=
  match m.test_item with
  | some c =>
    if trimS (row.getD c "") = "" then none else some (trimS (row.getD c ""))
  | none => none

/-- The stripped, non-blank item-role cell texts of the processed rows (rows
covering the maximum mapped column), in order, ignoring validity. -/
def labelsOf (m : HeaderMapping) (rows : List (List String)) : List String :=
  (rows.filter (fun r => maxCol m < r.length)).filterMap (labelOfRow m)

/-- The stripped item-role text of the last processed row of `rows` whose
item-role cell is non-blank (`""` when there is none): the label the
merged-cell convention carries forward, independently of row validity. -/
def lastNonBlankLabel (m : HeaderMapping) (rows : List (List String)) : String :=
  ((labelsOf m rows).getLast?).getD ""

/-- The keyword set of each role, for stating the membership reading of
header detection that the spec suggests. -/
def roleKeywords : HRole → List String
  | .item => itemKeywords
  | .value => valueKeywords
  | .judg => judgmentKeywords

/-- The §3 record invariant as the spec states it: no field empty or
whitespace-only, the item field neither the blank-below placeholder nor
starting with it. -/
def SpecInvariant (it : ItemData) : Prop :=
  it.test_item ≠ "" ∧ hasNonWs it.test_item = true ∧
  it.test_item ≠ "以下空白" ∧ String.isPrefixOf "以下" it.test_item = false ∧
  it.measured_value ≠ "" ∧ hasNonWs it.measured_value = true ∧
  it.judgment ≠ "" ∧ hasNonWs it.judgment = true

/-! ## Concrete documents used by the counterexamples and witnesses -/

/-- The spec bucketing scenario: one location, values 23.4, 23.6 and
24.9 MPa; three filler-free header rows precede the data (the detector
consumes `min(3, len(rows))` rows). -/
def tabC1 : List (List String) :=
  [["检测部位", "实测值", "单项判定"],
   ["a", "b", "c"],
   ["d", "e", "f"],
   ["柱1", "23.4 MPa", "合格"],
   ["柱1", "23.6 MPa", "合格"],
   ["柱1", "24.9 MPa", "合格"]]

/-- Document holding only `tabC1`. -/
def docC1 : DocX :=
  ⟨[], [tabC1]⟩

/-- A table whose second data row has a blank judgment-role cell. -/
def tabC2 : List (List String) :=
  [["检测部位", "实测值", "单项判定"],
   ["a", "b", "c"],
   ["d", "e", "f"],
   ["柱1", "23.4", "合格"],
   ["柱2", "24.0", ""]]

/-- Document holding only `tabC2`. -/
def docC2 : DocX :=
  ⟨[], [tabC2]⟩

/-- A header whose first cell contains the keyword `部位` as a proper
substring without being a member of the item keyword set. -/
def tabC3cex : List (List String) :=
  [["部位情况", "实测值", "判定"],
   ["x", "y", "z"]]

/-- A bucket input for the C4 witness. -/
def itemsC4 : List ItemData :=
  [⟨"柱1", "23.4 MPa", "合格"⟩]

/-- A table with a merged item cell and valid rows, for the C5 witness. -/
def tabC5 : List (List String) :=
  [["检测部位", "实测值", "单项判定"],
   ["a", "b", "c"],
   ["d", "e", "f"],
   ["梁A", "10.4", "合格"],
   ["", "11.6", "合格"]]

/-- A table assigning no header role. -/
def tabIneligible : List (List String) :=
  [["x", "y"],
   ["u", "v"]]

/-- First data-bearing table for the C6 witness. -/
def tabC6a : List (List String) :=
  [["检测部位", "实测值", "单项判定"],
   ["a", "b", "c"],
   ["d", "e", "f"],
   ["柱6", "30.0", "合格"]]

/-- Second data-bearing table for the C6 witness; its data never appears. -/
def tabC6b : List (List String) :=
  [["检测部位", "实测值", "单项判定"],
   ["a", "b", "c"],
   ["d", "e", "f"],
   ["柱7", "40.0", "合格"]]

/-- A document with one ineligible table and no paragraph text with data. -/
def docC7 : DocX :=
  ⟨["说明文字"], [tabIneligible]⟩

/-- The header mapping of the C8 witness table (all three roles, columns
0, 1, 2). -/
def hmC8 : HeaderMapping :=
  ⟨some 0, some 1, some 2⟩

/-- The spec end-to-end table: a header row plus two data rows, three rows in
all, so every row is consumed as a header candidate. -/
def tabC10 : List (List String) :=
  [["检测部位", "实测值", "单项判定"],
   ["柱1", "23.4 MPa", "合格"],
   ["", "23.6 MPa", "合格"]]

/-- Document holding only `tabC10`. -/
def docC10 : DocX :=
  ⟨[], [tabC10]⟩

/-- A string that is the output of `trimS` (every cell text the row extractor
stores, and the initial carried state, have this shape). -/
def GoodStr (s : String) : Prop :=
  ∃ r, s = trimS r

/-! ## Helper lemmas: trimmed strings and formatted values -/

theorem head?_dropWhile_not {α : Type} (p : α → Bool) (l : List α) (c : α)
    (h : (l.dropWhile p).head? = some c) : p c = false := by
  induction l with
  | nil => simp [List.dropWhile] at h
  | cons a t ih =>
    rw [List.dropWhile_cons] at h
    by_cases hp : p a = true
    · exact ih (by simpa [hp] using h)
    · simp only [hp, if_neg] at h
      simp only [Bool.false_eq_true, if_false, List.head?_cons, Option.some.injEq] at h
      rw [← h]
      exact Bool.eq_false_iff.mpr hp

theorem trimChars_head {l : List Char} {c : Char} {t : List Char}
    (h : trimChars l = c :: t) : isSpaceChar c = false := by
  unfold trimChars at h
  have hBne : (l.dropWhile isSpaceChar).reverse.dropWhile isSpaceChar ≠ [] := by
    intro hnil
    rw [hnil] at h
    simp at h
  have hlast : ((l.dropWhile isSpaceChar).reverse.dropWhile isSpaceChar).getLast? = some c := by
    rw [← List.head?_reverse, h, List.head?_cons]
  have hsplit :
      (l.dropWhile isSpaceChar).reverse.takeWhile isSpaceChar ++
        (l.dropWhile isSpaceChar).reverse.dropWhile isSpaceChar =
        (l.dropWhile isSpaceChar).reverse := List.takeWhile_append_dropWhile ..
  have hlastA : (l.dropWhile isSpaceChar).reverse.getLast? = some c := by
    rw [← hsplit, List.getLast?_append_of_ne_nil _ hBne, hlast]
  rw [List.getLast?_reverse] at hlastA
  exact head?_dropWhile_not isSpaceChar l c hlastA

theorem data_ne_nil_of_ne_empty {s : String} (h : s ≠ "") : s.data ≠ [] := by
  intro hd
  apply h
  cases s with
  | mk d => cases hd; rfl

theorem hasNonWs_of_goodStr {s : String} (hg : GoodStr s) (hne : s ≠ "") :
    hasNonWs s = true := by
  obtain ⟨r, rfl⟩ := hg
  have hd : (trimS r).data = trimChars r.data := rfl
  have hne' : trimChars r.data ≠ [] := by
    intro h0
    exact data_ne_nil_of_ne_empty hne (hd.trans h0)
  obtain ⟨c, t, hct⟩ : ∃ c t, trimChars r.data = c :: t := by
    cases hc : trimChars r.data with
    | nil => exact absurd hc hne'
    | cons c t => exact ⟨c, t, rfl⟩
  have hc0 := trimChars_head hct
  unfold hasNonWs
  rw [hd, hct]
  simp [hc0]

theorem hasNonWs_of_mem {s : String} {c : Char} (hc : c ∈ s.data)
    (hns : isSpaceChar c = false) : hasNonWs s = true := by
  unfold hasNonWs
  rw [List.any_eq_true]
  exact ⟨c, hc, by simp [hns]⟩

theorem ne_empty_of_mem {s : String} {c : Char} (hc : c ∈ s.data) : s ≠ "" := by
  intro h
  subst h
  cases hc

theorem dot_mem_fmt1 (q : Frac) : '.' ∈ (fmt1 q).data := by
  unfold fmt1
  rw [String.data_append, String.data_append]
  exact List.mem_append_left _ (List.mem_append_right _ (by decide))

theorem dot_mem_formatValue (avg : Frac) (orig : String) :
    '.' ∈ (formatValue avg orig).data := by
  unfold formatValue
  by_cases h : startsWithDigit orig = true
  · simp only [h, if_true]
    exact dot_mem_fmt1 avg
  · simp only [h, Bool.false_eq_true, if_false]
    cases htr : trailingNonDigits orig.data with
    | none => exact dot_mem_fmt1 avg
    | some u =>
      rw [String.data_append, String.data_append]
      exact List.mem_append_left _ (List.mem_append_left _ (dot_mem_fmt1 avg))

theorem formatValue_ne_empty (avg : Frac) (orig : String) :
    formatValue avg orig ≠ "" :=
  ne_empty_of_mem (dot_mem_formatValue avg orig)

theorem hasNonWs_formatValue (avg : Frac) (orig : String) :
    hasNonWs (formatValue avg orig) = true :=
  hasNonWs_of_mem (dot_mem_formatValue avg orig) rfl

/-! ## Helper lemmas: groups and buckets -/

theorem mem_addToGroups {k : String} {it0 : ItemData} :
    ∀ (gs : List (String × List ItemData)) (g : String × List ItemData) (it : ItemData),
      g ∈ addToGroups gs k it0 → it ∈ g.2 →
      (∃ g' ∈ gs, it ∈ g'.2) ∨ it = it0 := by
  intro gs
  induction gs with
  | nil =>
    intro g it hg hit
    simp only [addToGroups, List.mem_singleton] at hg
    rw [hg] at hit
    simp only [List.mem_singleton] at hit
    exact Or.inr hit
  | cons p rest ih =>
    intro g it hg hit
    obtain ⟨k0, l0⟩ := p
    by_cases hk : k0 = k
    · simp only [addToGroups, hk, if_true] at hg
      rcases List.mem_cons.mp hg with h | h
      · rw [h] at hit
        rcases List.mem_append.mp hit with h2 | h2
        · exact Or.inl ⟨(k0, l0), List.mem_cons_self .., h2⟩
        · exact Or.inr (List.mem_singleton.mp h2)
      · exact Or.inl ⟨g, List.mem_cons_of_mem _ h, hit⟩
    · simp only [addToGroups, hk, if_false] at hg
      rcases List.mem_cons.mp hg with h | h
      · rw [h] at hit
        exact Or.inl ⟨(k0, l0), List.mem_cons_self .., hit⟩
      · rcases ih g it h hit with ⟨g', hg', hit'⟩ | h'
        · exact Or.inl ⟨g', List.mem_cons_of_mem _ hg', hit'⟩
        · exact Or.inr h'

theorem addValueToBuckets_inv (P : Bucket → Prop) {key loc : String} {it : ItemData} {q : Frac}
    (hnew : P ⟨loc, it.judgment, [q], it⟩)
    (hupd : ∀ b, P b → P { b with values := b.values ++ [q] }) :
    ∀ (bs : List (String × Bucket)), (∀ kb ∈ bs, P kb.2) →
      ∀ kb ∈ addValueToBuckets bs key loc it q, P kb.2 := by
  intro bs
  induction bs with
  | nil =>
    intro _ kb hkb
    simp only [addValueToBuckets, List.mem_singleton] at hkb
    rw [hkb]
    exact hnew
  | cons p rest ih =>
    obtain ⟨k, b⟩ := p
    intro hbs kb hkb
    by_cases hk : k = key
    · simp only [addValueToBuckets, hk, if_true] at hkb
      rcases List.mem_cons.mp hkb with h | h
      · rw [h]
        exact hupd b (hbs (k, b) (List.mem_cons_self ..))
      · exact hbs kb (List.mem_cons_of_mem _ h)
    · simp only [addValueToBuckets, hk, if_false] at hkb
      rcases List.mem_cons.mp hkb with h | h
      · rw [h]
        exact hbs (k, b) (List.mem_cons_self ..)
      · exact ih (fun kb' hkb' => hbs kb' (List.mem_cons_of_mem _ hkb')) kb h

theorem buildBuckets_inv (P : Bucket → Prop) (loc : String) (items : List ItemData)
    (hnew : ∀ it ∈ items, ∀ tok, firstNumTok it.measured_value.data = some tok →
      P ⟨loc, it.judgment, [ratOfTok tok], it⟩)
    (hupd : ∀ b q, P b → P { b with values := b.values ++ [q] }) :
    ∀ kb ∈ buildBuckets loc items, P kb.2 := by
  suffices h : ∀ (l : List ItemData), (∀ it ∈ l, it ∈ items) →
      ∀ (bs : List (String × Bucket)), (∀ kb ∈ bs, P kb.2) →
      ∀ kb ∈ l.foldl (fun bs it =>
        match firstNumTok it.measured_value.data with
        | some tok => addValueToBuckets bs (loc ++ "_" ++ intStr (pyRound (ratOfTok tok))) loc it
            (ratOfTok tok)
        | none => bs) bs, P kb.2 by
    intro kb hkb
    exact h items (fun _ h => h) [] (by simp) kb hkb
  intro l
  induction l with
  | nil => intro _ bs hbs kb hkb; exact hbs kb hkb
  | cons it0 rest ih =>
    intro hl bs hbs kb hkb
    rw [List.foldl_cons] at hkb
    refine ih (fun it h => hl it (List.mem_cons_of_mem _ h)) _ ?_ kb hkb
    cases htok : firstNumTok it0.measured_value.data with
    | none => simpa using hbs
    | some tok =>
      exact addValueToBuckets_inv P
        (hnew it0 (hl it0 (List.mem_cons_self ..)) tok htok)
        (fun b hb => hupd b (ratOfTok tok) hb) bs hbs

theorem buildBuckets_sound (loc : String) (items : List ItemData) :
    ∀ kb ∈ buildBuckets loc items, kb.2.sample_item ∈ items ∧ kb.2.values ≠ [] :=
  buildBuckets_inv (fun b => b.sample_item ∈ items ∧ b.values ≠ []) loc items
    (fun it hit tok _ => ⟨hit, by simp⟩)
    (fun b q hb => ⟨hb.1, by simp⟩)

theorem mem_emitBuckets {loc : String} {items : List ItemData} {r : ItemData}
    (hr : r ∈ emitBuckets loc items) :
    ∃ k b, (k, b) ∈ buildBuckets loc items ∧ b.values ≠ [] ∧
      r = { b.sample_item with
            measured_value := formatValue (meanQ b.values) b.sample_item.measured_value } := by
  unfold emitBuckets at hr
  rcases List.mem_flatMap.mp hr with ⟨kb, hkb, hin⟩
  have hvals := (buildBuckets_sound loc items kb hkb).2
  rw [if_neg hvals] at hin
  exact ⟨kb.1, kb.2, hkb, hvals, List.mem_singleton.mp hin⟩

/-! ## Helper lemmas: the row walk stores only valid, trimmed records -/

theorem goodStr_empty : GoodStr "" :=
  ⟨"", rfl⟩

theorem goodStr_trim (r : String) : GoodStr (trimS r) :=
  ⟨r, rfl⟩

theorem buildItem_good (m : HeaderMapping) {prevJ : String} (hJ : GoodStr prevJ) (idx : Nat)
    {cur : String} (hcur : GoodStr cur) (row : List String) :
    GoodStr (buildItem m prevJ idx cur row).1.test_item ∧
    GoodStr (buildItem m prevJ idx cur row).1.measured_value ∧
    GoodStr (buildItem m prevJ idx cur row).1.judgment ∧
    GoodStr (buildItem m prevJ idx cur row).2 := by
  rcases hti : m.test_item with _ | c₁ <;> rcases hmv : m.measured_value with _ | c₂ <;>
    rcases hj : m.judgment with _ | c₃ <;>
      simp only [buildItem, hti, hmv, hj] <;> (try split_ifs) <;>
        refine ⟨?_, ?_, ?_, ?_⟩ <;>
          first
          | exact goodStr_trim _
          | exact hcur
          | exact hJ
          | exact goodStr_empty

theorem walkGo_sound (m : HeaderMapping) (prevJ : String) (hJ : GoodStr prevJ) :
    ∀ (rows : List (List String)) (idx : Nat) (cur : String)
      (gs : List (String × List ItemData)),
      GoodStr cur →
      (∀ g ∈ gs, ∀ it ∈ g.2, ValidItem it ∧ GoodStr it.test_item ∧
        GoodStr it.measured_value ∧ GoodStr it.judgment) →
      ∀ g ∈ walkGo m prevJ idx cur gs rows, ∀ it ∈ g.2,
        ValidItem it ∧ GoodStr it.test_item ∧ GoodStr it.measured_value ∧
          GoodStr it.judgment := by
  intro rows
  induction rows with
  | nil =>
    intro idx cur gs hcur hgs g hg it hit
    exact hgs g hg it hit
  | cons row rest ih =>
    intro idx cur gs hcur hgs g hg it hit
    rw [walkGo] at hg
    by_cases hlen : maxCol m < row.length
    · rw [if_pos hlen] at hg
      have hb := buildItem_good m hJ idx hcur row
      refine ih (idx + 1) _ _ hb.2.2.2 ?_ g hg it hit
      by_cases hv : ValidItem (buildItem m prevJ idx cur row).1
      · rw [if_pos hv]
        intro g' hg' it' hit'
        rcases mem_addToGroups _ g' it' hg' hit' with ⟨g'', hg'', hit''⟩ | h
        · exact hgs g'' hg'' it' hit''
        · rw [h]
          exact ⟨hv, hb.1, hb.2.1, hb.2.2.1⟩
      · rw [if_neg hv]
        exact hgs
    · rw [if_neg hlen] at hg
      exact ih (idx + 1) cur gs hcur hgs g hg it hit

theorem processTable_sound {prev : List ItemData} (hJ : GoodStr (prevJudg prev))
    {rows : List (List String)} {r : ItemData} (hr : r ∈ processTable prev rows) :
    SpecInvariant r := by
  unfold processTable at hr
  by_cases h1 : 1 < rows.length
  swap
  · rw [if_neg h1] at hr
    cases hr
  rw [if_pos h1] at hr
  by_cases h2 : 2 ≤ assignedCount (buildMapping (rows.take (min 3 rows.length)))
  swap
  · rw [if_neg h2] at hr
    cases hr
  rw [if_pos h2] at hr
  rcases List.mem_flatMap.mp hr with ⟨g, hg, hrin⟩
  by_cases hge : g.2 = []
  · rw [if_pos hge] at hrin
    cases hrin
  rw [if_neg hge] at hrin
  have hsound := walkGo_sound _ (prevJudg prev) hJ _ 0 "" [] goodStr_empty (by simp) g hg
  rcases mem_emitBuckets hrin with ⟨k, b, hkb, hvals, hreq⟩
  have hsample := (buildBuckets_sound g.1 g.2 (k, b) hkb).1
  obtain ⟨hvalid, hgti, hgmv, hgj⟩ := hsound b.sample_item hsample
  obtain ⟨hv1, hv2, hv3, hv4, hv5, hv6, hv7, hv8⟩ := hvalid
  rw [hreq]
  dsimp only
  exact ⟨hv1, hasNonWs_of_goodStr hgti hv1, hv2, hv4,
    formatValue_ne_empty (meanQ b.values) b.sample_item.measured_value,
    hasNonWs_formatValue (meanQ b.values) b.sample_item.measured_value,
    hv7, hasNonWs_of_goodStr hgj hv7⟩

theorem mem_extractTablesGo {ts : List (List (List String))} {r : ItemData}
    (h : r ∈ extractTablesGo [] ts) : ∃ t ∈ ts, r ∈ processTable [] t := by
  induction ts with
  | nil => cases h
  | cons t rest ih =>
    rw [extractTablesGo] at h
    by_cases hp : processTable [] t = []
    · simp only [List.nil_append, hp, if_pos] at h
      rcases ih (by simpa using h) with ⟨t', ht', hr'⟩
      exact ⟨t', List.mem_cons_of_mem _ ht', hr'⟩
    · rw [List.nil_append, if_neg hp] at h
      exact ⟨t, List.mem_cons_self .., h⟩

/-! ## Helper lemmas: header scan -/

theorem roleCol_stepMapping (m : HeaderMapping) (p : Nat × String) (r : HRole) :
    roleCol (stepMapping m p) r =
      if matchesRole r (trimS p.2) then some p.1 else roleCol m r := by
  cases hI : containsAny (trimS p.2) itemKeywords <;>
    cases hV : containsAny (trimS p.2) valueKeywords <;>
      cases hJ : containsAny (trimS p.2) judgmentKeywords <;>
        cases r <;>
          simp [stepMapping, matchesRole, roleCol, hI, hV, hJ]

theorem roleCol_foldl (l : List (Nat × String)) (m : HeaderMapping) (r : HRole) :
    roleCol (l.foldl stepMapping m) r =
      match (l.filter (fun p => matchesRole r (trimS p.2))).getLast? with
      | some p => some p.1
      | none => roleCol m r := by
  induction l using List.reverseRecOn with
  | nil => simp
  | append_singleton t p ih =>
    rw [List.foldl_append, List.foldl_cons, List.foldl_nil, roleCol_stepMapping,
      List.filter_append]
    by_cases h : matchesRole r (trimS p.2) = true
    · simp [h]
    · simp only [List.filter_cons, h, Bool.false_eq_true, if_false, List.filter_nil,
        List.append_nil, ih]

/-! ## Helper lemmas: the carried location state -/

theorem buildItem_snd (m : HeaderMapping) (prevJ : String) (idx : Nat) (cur : String)
    (row : List String) : (buildItem m prevJ idx cur row).2 = curStep m idx cur row := by
  rcases hti : m.test_item with _ | c
  · simp only [buildItem, curStep, hti]
  · simp only [buildItem, curStep, hti]
    split_ifs <;> rfl

theorem curStep_of_label_some {m : HeaderMapping} {row : List String} {t : String}
    (h : labelOfRow m row = some t) (idx : Nat) (cur : String) :
    curStep m idx cur row = t := by
  rcases hti : m.test_item with _ | c
  · simp only [labelOfRow, hti] at h
    cases h
  · simp only [labelOfRow, hti] at h
    by_cases ht : trimS (row.getD c "") = ""
    · rw [if_pos ht] at h
      cases h
    · rw [if_neg ht] at h
      simp only [curStep, hti]
      rw [if_neg (fun hand => ht hand.1)]
      exact Option.some.inj h

theorem curStep_of_label_none {m : HeaderMapping} {row : List String}
    (h : labelOfRow m row = none) {idx : Nat} {cur : String}
    (hinv : 0 < idx ∨ cur = "") : curStep m idx cur row = cur := by
  rcases hti : m.test_item with _ | c
  · simp only [curStep, hti]
  · simp only [labelOfRow, hti] at h
    by_cases ht : trimS (row.getD c "") = ""
    · simp only [curStep, hti]
      rcases hinv with hpos | hemp
      · rw [if_pos ⟨ht, hpos⟩]
      · subst hemp
        rcases Nat.eq_zero_or_pos idx with hz | hp
        · subst hz
          rw [if_neg (fun hand => Nat.lt_irrefl 0 hand.2)]
          exact ht
        · rw [if_pos ⟨ht, hp⟩]
    · rw [if_neg ht] at h
      cases h

theorem walkGo_append (m : HeaderMapping) (prevJ : String) :
    ∀ (rows₁ rows₂ : List (List String)) (idx : Nat) (cur : String)
      (gs : List (String × List ItemData)),
      walkGo m prevJ idx cur gs (rows₁ ++ rows₂) =
        walkGo m prevJ (idx + rows₁.length) (curGo m idx cur rows₁)
          (walkGo m prevJ idx cur gs rows₁) rows₂ := by
  intro rows₁
  induction rows₁ with
  | nil =>
    intro rows₂ idx cur gs
    simp [walkGo, curGo]
  | cons row rest ih =>
    intro rows₂ idx cur gs
    rw [List.cons_append, walkGo]
    conv_rhs => rw [walkGo, curGo]
    have harith : idx + 1 + rest.length = idx + (row :: rest).length := by
      simp only [List.length_cons]
      omega
    by_cases hlen : maxCol m < row.length
    · rw [if_pos hlen, if_pos hlen, if_pos hlen, ih, buildItem_snd, harith]
    · rw [if_neg hlen, if_neg hlen, if_neg hlen, ih, harith]

theorem labelsOf_cons_pos {m : HeaderMapping} {row : List String}
    (hlen : maxCol m < row.length) (rest : List (List String)) :
    labelsOf m (row :: rest) = (labelOfRow m row).toList ++ labelsOf m rest := by
  unfold labelsOf
  rw [List.filter_cons, if_pos (by simpa using hlen), List.filterMap_cons]
  cases labelOfRow m row <;> simp

theorem labelsOf_cons_neg {m : HeaderMapping} {row : List String}
    (hlen : ¬ maxCol m < row.length) (rest : List (List String)) :
    labelsOf m (row :: rest) = labelsOf m rest := by
  unfold labelsOf
  rw [List.filter_cons, if_neg (by simpa using hlen)]

theorem curGo_getD (m : HeaderMapping) :
    ∀ (rows : List (List String)) (idx : Nat) (cur : String), 0 < idx ∨ cur = "" →
      curGo m idx cur rows = ((labelsOf m rows).getLast?).getD cur := by
  intro rows
  induction rows with
  | nil =>
    intro idx cur _
    simp [curGo, labelsOf]
  | cons row rest ih =>
    intro idx cur hinv
    rw [curGo]
    by_cases hlen : maxCol m < row.length
    · rw [if_pos hlen]
      cases hl : labelOfRow m row with
      | none =>
        rw [curStep_of_label_none hl hinv, ih (idx + 1) cur (Or.inl (by omega)),
          labelsOf_cons_pos hlen, hl]
        simp
      | some t =>
        rw [curStep_of_label_some hl, ih (idx + 1) t (Or.inl (by omega)),
          labelsOf_cons_pos hlen, hl]
        rw [Option.toList_some, List.singleton_append, List.getLast?_cons, Option.getD_some]
    · rw [if_neg hlen, ih (idx + 1) cur (Or.inl (by omega)), labelsOf_cons_neg hlen]

theorem curGo_zero (m : HeaderMapping) (rows : List (List String)) :
    curGo m 0 "" rows = lastNonBlankLabel m rows := by
  rw [curGo_getD m rows 0 "" (Or.inr rfl), lastNonBlankLabel]

/-! ## Helper lemmas: bucket membership for the amended bucketing claim -/

theorem addValueToBuckets_mem_key (key loc : String) (it : ItemData) (q : Frac) :
    ∀ bs : List (String × Bucket),
      ∃ b, (key, b) ∈ addValueToBuckets bs key loc it q ∧ q ∈ b.values := by
  intro bs
  induction bs with
  | nil =>
    refine ⟨⟨loc, it.judgment, [q], it⟩, ?_, ?_⟩
    · simp [addValueToBuckets]
    · simp
  | cons p rest ih =>
    obtain ⟨k, b⟩ := p
    by_cases hk : k = key
    · refine ⟨{ b with values := b.values ++ [q] }, ?_, by simp⟩
      simp only [addValueToBuckets, if_pos hk]
      rw [hk]
      exact List.mem_cons_self ..
    · rcases ih with ⟨b', hb', hq⟩
      refine ⟨b', ?_, hq⟩
      simp only [addValueToBuckets, if_neg hk]
      exact List.mem_cons_of_mem _ hb'

theorem addValueToBuckets_mem_preserve {k₀ : String} {b₀ : Bucket} {q₀ : Frac}
    (key loc : String) (it : ItemData) (q : Frac) :
    ∀ bs : List (String × Bucket), (k₀, b₀) ∈ bs → q₀ ∈ b₀.values →
      ∃ b', (k₀, b') ∈ addValueToBuckets bs key loc it q ∧ q₀ ∈ b'.values := by
  intro bs
  induction bs with
  | nil =>
    intro h _
    cases h
  | cons p rest ih =>
    obtain ⟨k, b⟩ := p
    intro hmem hq
    rcases List.mem_cons.mp hmem with h | h
    · injection h with h1 h2
      subst h1
      subst h2
      by_cases hk : k₀ = key
      · refine ⟨{ b₀ with values := b₀.values ++ [q] }, ?_, List.mem_append_left _ hq⟩
        simp only [addValueToBuckets, if_pos hk]
        exact List.mem_cons_self ..
      · refine ⟨b₀, ?_, hq⟩
        simp only [addValueToBuckets, if_neg hk]
        exact List.mem_cons_self ..
    · by_cases hk : k = key
      · refine ⟨b₀, ?_, hq⟩
        simp only [addValueToBuckets, if_pos hk]
        exact List.mem_cons_of_mem _ h
      · rcases ih h hq with ⟨b', hb', hq'⟩
        refine ⟨b', ?_, hq'⟩
        simp only [addValueToBuckets, if_neg hk]
        exact List.mem_cons_of_mem _ hb'

theorem bucketFold_preserve (loc : String) :
    ∀ (l : List ItemData) (bs : List (String × Bucket)) (k₀ : String) (b₀ : Bucket)
      (q₀ : Frac), (k₀, b₀) ∈ bs → q₀ ∈ b₀.values →
      ∃ b', (k₀, b') ∈ l.foldl (fun bs it =>
        match firstNumTok it.measured_value.data with
        | some tok => addValueToBuckets bs (loc ++ "_" ++ intStr (pyRound (ratOfTok tok))) loc it
            (ratOfTok tok)
        | none => bs) bs ∧ q₀ ∈ b'.values := by
  intro l
  induction l with
  | nil =>
    intro bs k₀ b₀ q₀ hmem hq
    exact ⟨b₀, hmem, hq⟩
  | cons it0 rest ih =>
    intro bs k₀ b₀ q₀ hmem hq
    rw [List.foldl_cons]
    cases htok : firstNumTok it0.measured_value.data with
    | none =>
      simp only [htok]
      exact ih bs k₀ b₀ q₀ hmem hq
    | some tok =>
      simp only [htok]
      rcases addValueToBuckets_mem_preserve
        (loc ++ "_" ++ intStr (pyRound (ratOfTok tok))) loc it0 (ratOfTok tok) bs hmem hq with
        ⟨b', hb', hq'⟩
      exact ih _ k₀ b' q₀ hb' hq'

theorem buildBuckets_mem_of_tok (loc : String) (items : List ItemData) (it : ItemData)
    (tok : List Char) (hit : it ∈ items)
    (htok : firstNumTok it.measured_value.data = some tok) :
    ∃ b, (loc ++ "_" ++ intStr (pyRound (ratOfTok tok)), b) ∈ buildBuckets loc items ∧
      ratOfTok tok ∈ b.values := by
  rcases List.append_of_mem hit with ⟨l₁, l₂, rfl⟩
  unfold buildBuckets
  rw [List.foldl_append, List.foldl_cons]
  simp only [htok]
  rcases addValueToBuckets_mem_key (loc ++ "_" ++ intStr (pyRound (ratOfTok tok))) loc it
    (ratOfTok tok) (l₁.foldl (fun bs it =>
      match firstNumTok it.measured_value.data with
      | some tok => addValueToBuckets bs (loc ++ "_" ++ intStr (pyRound (ratOfTok tok))) loc it
          (ratOfTok tok)
      | none => bs) []) with ⟨b, hb, hq⟩
  exact bucketFold_preserve loc l₂ _ _ _ _ hb hq

/-! ## Helper lemma: shape of a trailing non-digit suffix -/

theorem trailingNonDigits_facts {s : List Char} {u : List Char}
    (h : trailingNonDigits s = some u) :
    u ≠ [] ∧ (∀ ch ∈ u, ch.isDigit = false) ∧ ∃ p, s = p ++ u := by
  unfold trailingNonDigits at h
  by_cases he : (s.reverse.takeWhile (fun c => !c.isDigit)).reverse = []
  · rw [if_pos he] at h
    cases h
  · rw [if_neg he] at h
    obtain rfl := (Option.some.inj h).symm
    refine ⟨he, ?_, ?_⟩
    · intro ch hch
      rw [List.mem_reverse] at hch
      have := List.mem_takeWhile_imp hch
      simpa using this
    · refine ⟨(s.reverse.dropWhile (fun c => !c.isDigit)).reverse, ?_⟩
      rw [← List.reverse_append, List.takeWhile_append_dropWhile, List.reverse_reverse]

/-! ## Claim theorems -/

/-- C4: every emitted representative record comes from a bucket; its value is
the bucket mean formatted by `formatValue` over the template value string:
plain one-decimal mean when the template begins with a numeric token
(a digit), mean plus the stripped trailing suffix when it does not and ends
with a (maximal, nonempty) run of non-digit characters; the judgment is the
template judgment unchanged. -/
theorem c4_representative_value (loc : String) (items : List ItemData) (r : ItemData)
    (hr : r ∈ emitBuckets loc items) :
    ∃ b : Bucket, (∃ key, (key, b) ∈ buildBuckets loc items) ∧ b.sample_item ∈ items ∧
      b.values ≠ [] ∧ r.test_item = b.sample_item.test_item ∧
      r.judgment = b.sample_item.judgment ∧
      r.measured_value = formatValue (meanQ b.values) b.sample_item.measured_value ∧
      (startsWithDigit b.sample_item.measured_value = true →
        r.measured_value = fmt1 (meanQ b.values)) ∧
      (startsWithDigit b.sample_item.measured_value = false →
        ∀ u, trailingNonDigits b.sample_item.measured_value.data = some u →
          r.measured_value = fmt1 (meanQ b.values) ++ " " ++ trimS ⟨u⟩ ∧
          u ≠ [] ∧ (∀ ch ∈ u, ch.isDigit = false) ∧
          ∃ p, b.sample_item.measured_value.data = p ++ u) := by
  rcases mem_emitBuckets hr with ⟨k, b, hkb, hvals, hreq⟩
  have hsample := (buildBuckets_sound loc items (k, b) hkb).1
  refine ⟨b, ⟨k, hkb⟩, hsample, hvals, ?_, ?_, ?_, ?_, ?_⟩
  · rw [hreq]
  · rw [hreq]
  · rw [hreq]
  · intro hd
    rw [hreq]
    dsimp only
    unfold formatValue
    rw [if_pos hd]
  · intro hd u hu
    rcases trailingNonDigits_facts hu with ⟨hu1, hu2, hu3⟩
    refine ⟨?_, hu1, hu2, hu3⟩
    rw [hreq]
    dsimp only
    unfold formatValue
    rw [if_neg (by rw [hd]; exact Bool.false_ne_true), hu]

/-- C4 witness: the single-record bucket of `itemsC4`. -/
theorem c4_representative_value_witness :
    ∃ b : Bucket, (∃ key, (key, b) ∈ buildBuckets "柱1" itemsC4) ∧ b.sample_item ∈ itemsC4 ∧
      b.values ≠ [] ∧ (⟨"柱1", "23.4", "合格"⟩ : ItemData).test_item = b.sample_item.test_item ∧
      (⟨"柱1", "23.4", "合格"⟩ : ItemData).judgment = b.sample_item.judgment ∧
      (⟨"柱1", "23.4", "合格"⟩ : ItemData).measured_value =
        formatValue (meanQ b.values) b.sample_item.measured_value ∧
      (startsWithDigit b.sample_item.measured_value = true →
        (⟨"柱1", "23.4", "合格"⟩ : ItemData).measured_value = fmt1 (meanQ b.values)) ∧
      (startsWithDigit b.sample_item.measured_value = false →
        ∀ u, trailingNonDigits b.sample_item.measured_value.data = some u →
          (⟨"柱1", "23.4", "合格"⟩ : ItemData).measured_value =
            fmt1 (meanQ b.values) ++ " " ++ trimS ⟨u⟩ ∧
          u ≠ [] ∧ (∀ ch ∈ u, ch.isDigit = false) ∧
          ∃ p, b.sample_item.measured_value.data = p ++ u) :=
  c4_representative_value "柱1" itemsC4 ⟨"柱1", "23.4", "合格"⟩ (by decide)

/-- C5: every record the table pipeline emits satisfies the §3 invariant:
all three fields nonempty and not whitespace-only, and the item neither the
blank-below placeholder nor prefixed by it. -/
theorem c5_invariant (tables : List (List (List String))) (r : ItemData)
    (hr : r ∈ extractTablesGo [] tables) : SpecInvariant r := by
  rcases mem_extractTablesGo hr with ⟨t, _, hrt⟩
  exact @processTable_sound [] goodStr_empty t r hrt

/-- C5 witness: the merged-cell table `tabC5`. -/
theorem c5_invariant_witness : SpecInvariant ⟨"梁A", "10.4", "合格"⟩ :=
  c5_invariant [tabC5] ⟨"梁A", "10.4", "合格"⟩ (by decide)

/-- C3 counterexample: in `tabC3cex` the detector assigns the item role from
the cell `"部位情况"`, although no candidate cell of the table is a member of
the item keyword set; assignment is therefore not equivalent to trimmed-text
membership in the keyword sets. -/
theorem c3_counterexample :
    (roleCol (buildMapping (headerCandidates tabC3cex)) HRole.item).isSome = true ∧
    ((headerCandidates tabC3cex).any (fun row =>
      row.any (fun cell => (roleKeywords HRole.item).contains (trimS cell)))) = false := by
  decide

/-- C3 (amended): a role is assigned exactly to the column of the last cell,
in row-major order over the candidate header rows, whose stripped text
contains a keyword of the role as a substring, roles being tested in the
order item, value, judgment with the first containing role taking the cell
(`lastRoleMatch`); and a table that does not reach two assigned roles
contributes no records. -/
theorem c3_header_detection_amended (rows : List (List String)) (prev : List ItemData) :
    (∀ r : HRole, roleCol (buildMapping (headerCandidates rows)) r =
      lastRoleMatch (headerCandidates rows) r) ∧
    (2 ≤ assignedCount (buildMapping (headerCandidates rows)) ∨
      processTable prev rows = []) := by
  constructor
  · intro r
    unfold buildMapping lastRoleMatch
    rw [roleCol_foldl]
    cases h : (((headerCandidates rows).flatMap List.enum).filter
        (fun p => matchesRole r (trimS p.2))).getLast? with
    | some p => simp [h]
    | none => cases r <;> simp [h, roleCol]
  · by_cases hc : 2 ≤ assignedCount (buildMapping (headerCandidates rows))
    · exact Or.inl hc
    · refine Or.inr ?_
      have hc' : ¬ 2 ≤ assignedCount (buildMapping (rows.take (min 3 rows.length))) := hc
      simp only [processTable]
      by_cases h1 : 1 < rows.length
      · rw [if_pos h1, if_neg hc']
      · rw [if_neg h1]

/-- C3 witness: the amended characterisation at the counterexample table. -/
theorem c3_header_detection_amended_witness :
    (∀ r : HRole, roleCol (buildMapping (headerCandidates tabC3cex)) r =
      lastRoleMatch (headerCandidates tabC3cex) r) ∧
    (2 ≤ assignedCount (buildMapping (headerCandidates tabC3cex)) ∨
      processTable [] tabC3cex = []) :=
  c3_header_detection_amended tabC3cex []

/-- C1 counterexample: on `docC1` the values 23.4 and 23.6 do not merge — they
round to 23 and 24 and stay in separate buckets whose representatives keep
their own values — and no emitted value equals the spec example
`"23.5 MPa"`. -/
theorem c1_counterexample :
    extract_table_data docC1 =
      [⟨"柱1", "23.4", "合格"⟩, ⟨"柱1", "23.6", "合格"⟩, ⟨"柱1", "24.9", "合格"⟩] ∧
    (extract_table_data docC1).filter (fun r => r.measured_value = "23.5 MPa") = [] := by
  decide

/-- C1 (amended): the bucket of a record is keyed by its item label paired
with the first numeric token of its value rounded by Python `round`
(half-to-even), and the record's numeric value is accumulated there; on the
concrete table, 23.4 (bucket 23) and 23.6 (bucket 24) stay separate and
24.9 forms bucket 25, each representative rendered with one decimal and
without the unit. -/
theorem c1_bucket_key_amended :
    (∀ (loc : String) (items : List ItemData) (it : ItemData) (tok : List Char),
      it ∈ items → firstNumTok it.measured_value.data = some tok →
      ∃ b : Bucket,
        (loc ++ "_" ++ intStr (pyRound (ratOfTok tok)), b) ∈ buildBuckets loc items ∧
        ratOfTok tok ∈ b.values) ∧
    extract_table_data docC1 =
      [⟨"柱1", "23.4", "合格"⟩, ⟨"柱1", "23.6", "合格"⟩, ⟨"柱1", "24.9", "合格"⟩] := by
  constructor
  · intro loc items it tok hit htok
    exact buildBuckets_mem_of_tok loc items it tok hit htok
  · decide

/-- C1 witness: the record `23.4 MPa` lands in the bucket keyed `柱1_23`. -/
theorem c1_bucket_key_amended_witness :
    ∃ b : Bucket, ("柱1_23", b) ∈ buildBuckets "柱1" [⟨"柱1", "23.4 MPa", "合格"⟩] ∧
      ratOfTok ['2', '3', '.', '4'] ∈ b.values :=
  c1_bucket_key_amended.1 "柱1" [⟨"柱1", "23.4 MPa", "合格"⟩] ⟨"柱1", "23.4 MPa", "合格"⟩
    ['2', '3', '.', '4'] (by decide) (by decide)

/-- C2: on `docC2` the second data row's blank judgment cell is filled from
`table_data`, which is always empty while rows are walked, so the row gets
judgment `""` and is discarded instead of inheriting `合格`; only the first
row survives. -/
theorem c2_judgment_fallback_eval :
    extract_table_data docC2 = [⟨"柱1", "23.4", "合格"⟩] ∧
    (extract_table_data docC2).filter (fun r => r.test_item = "柱2") = [] := by
  decide

/-- C9: the date extractor normalises `年月日` dates with zero padding, pads
dashed dates componentwise, returns the sentinel `未知` when no pattern
matches, and prefers the labelled pattern over an earlier bare date. -/
theorem c9_date_normalization :
    extract_test_date "检测于2024年11月18日完成" = "2024-11-18" ∧
    extract_test_date "交付2024-1-5检测" = "2024-01-05" ∧
    extract_test_date "没有任何日期信息" = "未知" ∧
    extract_test_date "2023-4-5由检测日期：2024年11月18日" = "2024-11-18" := by
  decide

/-- C6: when every table before `t` contributes no records and `t` does, the
table scan returns exactly the records of `t` — tables after `t` are never
reflected in the result. -/
theorem c6_short_circuit (pre : List (List (List String))) (t : List (List String))
    (post : List (List (List String)))
    (hpre : ∀ t' ∈ pre, processTable [] t' = [])
    (ht : processTable [] t ≠ []) :
    extractTablesGo [] (pre ++ t :: post) = processTable [] t := by
  induction pre with
  | nil =>
    rw [List.nil_append, extractTablesGo, List.nil_append, if_neg ht]
  | cons t0 rest ih =>
    have h0 := hpre t0 (List.mem_cons_self ..)
    rw [List.cons_append, extractTablesGo, List.nil_append, h0, if_pos rfl]
    exact ih (fun t' ht' => hpre t' (List.mem_cons_of_mem _ ht'))

/-- C6 witness: an ineligible table, then two data-bearing tables; the result
is exactly the first data-bearing table's records. -/
theorem c6_short_circuit_witness :
    extractTablesGo [] [tabIneligible, tabC6a, tabC6b] = processTable [] tabC6a :=
  c6_short_circuit [tabIneligible] tabC6a [tabC6b]
    (by
      intro t' ht'
      rw [List.mem_singleton] at ht'
      subst ht'
      decide)
    (by decide)

/-- C7: the text fallback result is used exactly when the table scan yields
nothing; an empty combined result makes `process_document` return `none`
(never `some []`), and such a document contributes nothing to the aggregate
output. -/
theorem c7_fallback_and_failure (doc : DocX) :
    (extractTablesGo [] doc.tables ≠ [] →
      extract_table_data doc = extractTablesGo [] doc.tables) ∧
    (extractTablesGo [] doc.tables = [] →
      extract_table_data doc = extract_from_text (fullText doc)) ∧
    (extract_table_data doc = [] → process_document doc = none) ∧
    (∀ rs, process_document doc = some rs → rs ≠ []) ∧
    (process_document doc = none → ∀ pre post,
      process_all_documents (pre ++ doc :: post) = process_all_documents (pre ++ post)) := by
  have hpd : process_document doc =
      if extract_table_data doc = [] then none
      else some ((extract_table_data doc).map (fun it =>
        ⟨extract_report_number (fullText doc), extract_sample_name (fullText doc),
          it.test_item, it.measured_value, it.judgment, extract_test_date (fullText doc)⟩)) :=
    rfl
  refine ⟨?_, ?_, ?_, ?_, ?_⟩
  · intro h
    simp only [extract_table_data]
    rw [if_neg h]
  · intro h
    simp only [extract_table_data]
    rw [if_pos h]
  · intro h
    rw [hpd, if_pos h]
  · intro rs hrs
    rw [hpd] at hrs
    by_cases h : extract_table_data doc = []
    · rw [if_pos h] at hrs
      cases hrs
    · rw [if_neg h] at hrs
      have := Option.some.inj hrs
      rw [← this]
      intro hmap
      exact h (List.map_eq_nil_iff.mp hmap)
  · intro h pre post
    unfold process_all_documents
    rw [List.foldl_append, List.foldl_append, List.foldl_cons]
    simp only [h]

/-- C7 witness: a document with one ineligible table and no usable text
yields `none` and contributes nothing to the run output. -/
theorem c7_fallback_and_failure_witness :
    extract_table_data docC7 = extract_from_text (fullText docC7) ∧
    process_document docC7 = none ∧
    process_all_documents [docC7] = process_all_documents [] := by
  have h := c7_fallback_and_failure docC7
  refine ⟨h.2.1 (by decide), h.2.2.1 (by decide), ?_⟩
  have h5 := h.2.2.2.2 (h.2.2.1 (by decide)) [] []
  simpa using h5

/-- C10: a table with at most three rows yields no records (with fewer than
two rows it is skipped outright, otherwise all its rows are consumed as
header candidates), so a document whose tables all have at most three rows
always falls through to the text fallback. -/
theorem c10_small_tables :
    (∀ (prev : List ItemData) (rows : List (List String)), rows.length ≤ 3 →
      processTable prev rows = []) ∧
    (∀ doc : DocX, (∀ t ∈ doc.tables, t.length ≤ 3) →
      extract_table_data doc = extract_from_text (fullText doc)) := by
  have h1 : ∀ (prev : List ItemData) (rows : List (List String)), rows.length ≤ 3 →
      processTable prev rows = [] := by
    intro prev rows hlen
    simp only [processTable]
    by_cases h : 1 < rows.length
    · rw [if_pos h]
      have hdrop : rows.drop (rows.take (min 3 rows.length)).length = [] := by
        rw [List.length_take]
        have : min (min 3 rows.length) rows.length = rows.length := by omega
        rw [this]
        exact List.drop_length ..
      rw [hdrop]
      by_cases h2 : 2 ≤ assignedCount (buildMapping (rows.take (min 3 rows.length)))
      · rw [if_pos h2]
        rfl
      · rw [if_neg h2]
    · rw [if_neg h]
  refine ⟨h1, ?_⟩
  intro doc hdoc
  have hall : ∀ ts : List (List (List String)), (∀ t ∈ ts, t.length ≤ 3) →
      extractTablesGo [] ts = [] := by
    intro ts
    induction ts with
    | nil => intro _; rfl
    | cons t rest ih =>
      intro hts
      rw [extractTablesGo, List.nil_append, h1 [] t (hts t (List.mem_cons_self ..)),
        if_pos rfl]
      exact ih (fun t' ht' => hts t' (List.mem_cons_of_mem _ ht'))
  simp only [extract_table_data]
  rw [if_pos (hall doc.tables hdoc)]

/-- C10 witness: the three-row table `tabC10` (a header plus two data rows)
yields nothing, and the document holding it falls through to the fallback. -/
theorem c10_small_tables_witness :
    processTable [] tabC10 = [] ∧
    extract_table_data docC10 = extract_from_text (fullText docC10) := by
  refine ⟨c10_small_tables.1 [] tabC10 (by decide), c10_small_tables.2 docC10 ?_⟩
  intro t ht
  rw [show docC10.tables = [tabC10] from rfl, List.mem_singleton] at ht
  subst ht
  decide

theorem labelsOf_append (m : HeaderMapping) (a b : List (List String)) :
    labelsOf m (a ++ b) = labelsOf m a ++ labelsOf m b := by
  unfold labelsOf
  rw [List.filter_append, List.filterMap_append]

/-- C8: with an item role mapped to column `c`, a processed data row after
the first whose stripped item cell is blank takes as item field the carried
label — the stripped item text of the most recent processed row with a
non-blank item cell, computed over all processed rows regardless of validity
— while a non-blank item cell supplies the field and becomes the carried
label for the following rows before the validity filter is consulted; the
walk of `rows₁ ++ row :: rows₂` factors accordingly. -/
theorem c8_item_carry_forward (m : HeaderMapping) (prevJ : String)
    (rows₁ : List (List String)) (row : List String) (rows₂ : List (List String)) (c : Nat)
    (hm : m.test_item = some c) (hg : maxCol m < row.length) (h1 : 0 < rows₁.length) :
    ((buildItem m prevJ rows₁.length (lastNonBlankLabel m rows₁) row).1.test_item =
      (if trimS (row.getD c "") = "" then lastNonBlankLabel m rows₁
       else trimS (row.getD c ""))) ∧
    (trimS (row.getD c "") ≠ "" →
      lastNonBlankLabel m (rows₁ ++ [row]) = trimS (row.getD c "")) ∧
    walkGo m prevJ 0 "" [] (rows₁ ++ row :: rows₂) =
      walkGo m prevJ (rows₁.length + 1)
        (if trimS (row.getD c "") = "" then lastNonBlankLabel m rows₁
         else trimS (row.getD c ""))
        (if ValidItem (buildItem m prevJ rows₁.length (lastNonBlankLabel m rows₁) row).1 then
          addToGroups (walkGo m prevJ 0 "" [] rows₁)
            (buildItem m prevJ rows₁.length (lastNonBlankLabel m rows₁) row).1.test_item
            (buildItem m prevJ rows₁.length (lastNonBlankLabel m rows₁) row).1
         else walkGo m prevJ 0 "" [] rows₁) rows₂ := by
  have hcur : curGo m 0 "" rows₁ = lastNonBlankLabel m rows₁ := curGo_zero m rows₁
  have hsnd : (buildItem m prevJ rows₁.length (lastNonBlankLabel m rows₁) row).2 =
      (if trimS (row.getD c "") = "" then lastNonBlankLabel m rows₁
       else trimS (row.getD c "")) := by
    rw [buildItem_snd]
    simp only [curStep, hm]
    by_cases ht : trimS (row.getD c "") = ""
    · rw [if_pos ⟨ht, h1⟩, if_pos ht]
    · rw [if_neg (fun hand => ht hand.1), if_neg ht]
  refine ⟨?_, ?_, ?_⟩
  · simp only [buildItem, hm]
    by_cases ht : trimS (row.getD c "") = ""
    · rw [if_pos ⟨ht, h1⟩, if_pos ht]
    · rw [if_neg (fun hand => ht hand.1), if_neg ht]
  · intro ht
    unfold lastNonBlankLabel
    have hnil : labelsOf m ([] : List (List String)) = [] := rfl
    rw [labelsOf_append, labelsOf_cons_pos hg, hnil, List.append_nil]
    have hLrow : labelOfRow m row = some (trimS (row.getD c "")) := by
      simp only [labelOfRow, hm]
      rw [if_neg ht]
    rw [hLrow, Option.toList_some, List.getLast?_concat]
    rfl
  · rw [walkGo_append m prevJ rows₁ (row :: rows₂) 0 "" [], hcur, walkGo, if_pos hg,
      Nat.zero_add, hsnd]

/-- C8 witness: a blank item cell after the row `梁A` inherits the label
`梁A`, and the walk factors through that carried state. -/
theorem c8_item_carry_forward_witness :
    ((buildItem hmC8 "" 1 (lastNonBlankLabel hmC8 [["梁A", "10.4", "合格"]])
        ["", "11.6", "合格"]).1.test_item =
      (if trimS ("" : String) = "" then lastNonBlankLabel hmC8 [["梁A", "10.4", "合格"]]
       else trimS ("" : String))) ∧
    (trimS ("" : String) ≠ "" →
      lastNonBlankLabel hmC8 ([["梁A", "10.4", "合格"]] ++ [["", "11.6", "合格"]]) =
        trimS ("" : String)) ∧
    walkGo hmC8 "" 0 "" [] ([["梁A", "10.4", "合格"]] ++ ["", "11.6", "合格"] :: []) =
      walkGo hmC8 "" 2
        (if trimS ("" : String) = "" then lastNonBlankLabel hmC8 [["梁A", "10.4", "合格"]]
         else trimS ("" : String))
        (if ValidItem (buildItem hmC8 "" 1 (lastNonBlankLabel hmC8 [["梁A", "10.4", "合格"]])
            ["", "11.6", "合格"]).1 then
          addToGroups (walkGo hmC8 "" 0 "" [] [["梁A", "10.4", "合格"]])
            (buildItem hmC8 "" 1 (lastNonBlankLabel hmC8 [["梁A", "10.4", "合格"]])
              ["", "11.6", "合格"]).1.test_item
            (buildItem hmC8 "" 1 (lastNonBlankLabel hmC8 [["梁A", "10.4", "合格"]])
              ["", "11.6", "合格"]).1
         else walkGo hmC8 "" 0 "" [] [["梁A", "10.4", "合格"]]) [] :=
  c8_item_carry_forward hmC8 "" [["梁A", "10.4", "合格"]] ["", "11.6", "合格"] [] 0 rfl
    (by decide) (by decide)
